import Mathlib

/-!
Shallow embedding of the go-scraper crawl/audit engine.

Source files embedded: audit_full_site.go, audit_page.go (page audit and
worker pool), and the check engine / link verifier file (checkH1, checkTitle,
checkDescription, checkLinkProtocol, getRegex, checkKeywords, linkWorker,
checkBrokenLinks, isLinkAlive) together with the HTTP handler's checks
resolution (auditHandler).

Go maps are embedded as association lists; all map-level statements are made
through lookup functions and are therefore insensitive to entry order, which
mirrors the unordered Go map.  Go byte-length of strings is modelled by
byteLen.  External collaborators (net/url parsing, the chromedp renderer, the
network prober) are passed as explicit function parameters.
-/

namespace GoScraper

/-! Warning types.  In the source, WarningType is a string type with named
constants (audit_full_site.go lines 16-38). -/

abbrev WarningType := String

def WarningH1Missing : WarningType := "h1_missing"

def WarningH1Multiple : WarningType := "h1_multiple"

def WarningTitleMissing : WarningType := "title_missing"

def WarningTitleTooShort : WarningType := "title_too_short"

def WarningTitleTooLong : WarningType := "title_too_long"

def WarningMetaDescriptionMissing : WarningType := "meta_description_missing"

def WarningMetaDescriptionTooShort : WarningType := "meta_description_too_short"

def WarningMetaDescriptionTooLong : WarningType := "meta_description_too_long"

def WarningLinksBroken : WarningType := "links_broken"

def WarningHTTPSToHTTPLinks : WarningType := "https_to_http_links"

/-- Per-check warning map: Go map[WarningType][]string, one evidence row per
type, as an association list. -/
abbrev CheckWarnings := List (WarningType × List String)

/-- Per-page / crawl-wide warning map: Go map[WarningType][][]string, a list
of evidence rows per type, as an association list. -/
abbrev WarningMap := List (WarningType × List (List String))

/-- Lookup in a per-check warning map (Go map read: first matching key). -/
def lookupW (m : CheckWarnings) (t : WarningType) : Option (List String) :=
  match m with
  | [] => none
  | (t', ev) :: rest => if t' = t then some ev else lookupW rest t

/-- Lookup in a per-page warning map; a missing key reads as the empty list,
as a Go map read of a missing key yields the nil slice. -/
def lookupWM (m : WarningMap) (t : WarningType) : List (List String) :=
  match m with
  | [] => []
  | (t', evs) :: rest => if t' = t then evs else lookupWM rest t

/-- Byte length of a string: Go len(s) on a UTF-8 encoded string. -/
def byteLen (s : String) : Nat :=
  s.data.foldl (fun n c => n + c.utf8Size) 0

/-! Check engine: checkH1, checkTitle, checkDescription (check-engine file
lines 26-96). -/

/-- checkH1: the multiple-H1 check runs first (adding h1_multiple with the
decimal count), then an empty list adds h1_missing and returns early, then a
contained empty string adds h1_missing.  fmt.Sprintf with the d verb is the
decimal rendering toString. -/
def checkH1 (h1Texts : List String) (pageURL : String) : CheckWarnings :=
  let multi : CheckWarnings :=
    if 1 < h1Texts.length then [(WarningH1Multiple, [pageURL, toString h1Texts.length])]
    else []
  if h1Texts.length = 0 then multi ++ [(WarningH1Missing, [pageURL])]
  else if h1Texts.contains "" then multi ++ [(WarningH1Missing, [pageURL])]
  else multi

/-- checkTitle: empty title, then byte length below 30, then byte length
above 65, each branch returning immediately. -/
def checkTitle (title : String) (pageURL : String) : CheckWarnings :=
  if title = "" then [(WarningTitleMissing, [pageURL])]
  else if byteLen title < 30 then [(WarningTitleTooShort, [pageURL, title])]
  else if 65 < byteLen title then [(WarningTitleTooLong, [pageURL, title])]
  else []

/-- checkDescription: same shape as checkTitle with thresholds 30 and 165. -/
def checkDescription (metaDesc : String) (pageURL : String) : CheckWarnings :=
  if metaDesc = "" then [(WarningMetaDescriptionMissing, [pageURL])]
  else if byteLen metaDesc < 30 then [(WarningMetaDescriptionTooShort, [pageURL, metaDesc])]
  else if 165 < byteLen metaDesc then [(WarningMetaDescriptionTooLong, [pageURL, metaDesc])]
  else []

/-- C4: checkTitle yields title_missing with evidence [pageURL] iff the title
is empty; otherwise title_too_short with evidence [pageURL, title] iff its
byte length is below 30; otherwise title_too_long with evidence
[pageURL, title] iff its byte length exceeds 65; otherwise no warning.  The
outcomes are mutually exclusive (at most one warning), and the boundary
lengths 30 and 65 produce no warning while 29 and 66 do. -/
theorem checkTitle_spec (t u : String) :
    (lookupW (checkTitle t u) WarningTitleMissing = some [u] ↔ t = "") ∧
    (lookupW (checkTitle t u) WarningTitleTooShort = some [u, t] ↔
      t ≠ "" ∧ byteLen t < 30) ∧
    (lookupW (checkTitle t u) WarningTitleTooLong = some [u, t] ↔
      t ≠ "" ∧ 30 ≤ byteLen t ∧ 65 < byteLen t) ∧
    (checkTitle t u = [] ↔ t ≠ "" ∧ 30 ≤ byteLen t ∧ byteLen t ≤ 65) ∧
    (checkTitle t u).length ≤ 1 ∧
    checkTitle (String.mk (List.replicate 30 'a')) "https://x.com" = [] ∧
    lookupW (checkTitle (String.mk (List.replicate 29 'a')) "https://x.com") WarningTitleTooShort =
      some ["https://x.com", String.mk (List.replicate 29 'a')] ∧
    checkTitle (String.mk (List.replicate 65 'a')) "https://x.com" = [] ∧
    lookupW (checkTitle (String.mk (List.replicate 66 'a')) "https://x.com") WarningTitleTooLong =
      some ["https://x.com", String.mk (List.replicate 66 'a')] := by
  refine ⟨?_, ?_, ?_, ?_, ?_, ?_, ?_, ?_, ?_⟩
  · unfold checkTitle
    split_ifs with h1 h2 h3 <;>
      simp [lookupW, WarningTitleMissing, WarningTitleTooShort, WarningTitleTooLong, h1]
  · unfold checkTitle
    split_ifs with h1 h2 h3 <;>
      simp_all [lookupW, WarningTitleMissing, WarningTitleTooShort, WarningTitleTooLong]
  · unfold checkTitle
    split_ifs with h1 h2 h3 <;>
      simp_all [lookupW, WarningTitleMissing, WarningTitleTooShort, WarningTitleTooLong]
  · unfold checkTitle
    split_ifs with h1 h2 h3 <;> simp_all
  · unfold checkTitle
    split_ifs <;> simp
  · decide
  · decide
  · decide
  · decide

/-- Whitespace trimming of a string, modelling the trim the spec speaks of
(String.prototype.trim in the renderer's extraction script). -/
def trimStr (s : String) : String :=
  String.mk (((s.data.dropWhile Char.isWhitespace).reverse.dropWhile Char.isWhitespace).reverse)

/-- C6 counterexample: the H1 text " " is empty after trimming, yet checkH1
emits no h1_missing warning — the code compares texts against the empty
string only and never trims. -/
theorem checkH1_trim_counterexample :
    trimStr " " = "" ∧
    lookupW (checkH1 [" "] "https://x.com") WarningH1Missing = none := by
  constructor
  · decide
  · decide

/-- C6 (amended): an empty H1 list yields exactly h1_missing with evidence
[pageURL]; a list of length n above one yields h1_multiple with evidence
[pageURL, n in decimal] (so a two-element list gives [pageURL, "2"]); and a
non-empty list containing the empty string yields h1_missing with evidence
[pageURL].  (H1 texts reach this check already trimmed by the renderer; the
check itself compares against the empty string only.) -/
theorem checkH1_spec (h1Texts : List String) (u : String) :
    (h1Texts = [] → checkH1 h1Texts u = [(WarningH1Missing, [u])]) ∧
    (1 < h1Texts.length →
      lookupW (checkH1 h1Texts u) WarningH1Multiple = some [u, toString h1Texts.length]) ∧
    (h1Texts ≠ [] → h1Texts.contains "" = true →
      lookupW (checkH1 h1Texts u) WarningH1Missing = some [u]) ∧
    lookupW (checkH1 ["A", "B"] u) WarningH1Multiple = some [u, "2"] := by
  refine ⟨?_, ?_, ?_, ?_⟩
  · intro h
    subst h
    simp [checkH1]
  · intro h
    unfold checkH1
    have hne : h1Texts.length ≠ 0 := by omega
    simp only [if_pos h, if_neg hne]
    split_ifs <;>
      simp [lookupW, WarningH1Multiple, WarningH1Missing]
  · intro hne hc
    unfold checkH1
    have hlen : h1Texts.length ≠ 0 := by
      simpa [List.length_eq_zero] using hne
    simp only [if_neg hlen, hc, if_pos]
    split_ifs with h1 <;>
      simp [lookupW, WarningH1Multiple, WarningH1Missing]
  · simp [checkH1, lookupW, WarningH1Multiple, WarningH1Missing]
    decide

/-- Closed instance for checkH1_spec: the hypotheses hold and the conclusions
evaluate at concrete inputs. -/
theorem checkH1_spec_witness :
    checkH1 [] "https://x.com" = [(WarningH1Missing, ["https://x.com"])] ∧
    lookupW (checkH1 ["A", ""] "https://x.com") WarningH1Missing = some ["https://x.com"] :=
  ⟨(checkH1_spec [] "https://x.com").1 rfl,
    (checkH1_spec ["A", ""] "https://x.com").2.2.1 (by decide) (by decide)⟩

/-! URL parsing (net/url, external collaborator): the fields of a parsed URL
used by the source, with parse failure as none. -/

structure ParsedURL where
  scheme : String
  host : String
  path : String
deriving DecidableEq

/-- checkLinkProtocol: collects every href that parses with scheme "http"
(parse errors are skipped) and, when any exist, emits one
https_to_http_links row listing the page URL followed by those links. -/
def checkLinkProtocol (parse : String → Option ParsedURL) (linkHrefs : List String)
    (pageURL : String) : CheckWarnings :=
  let httpLinks := linkHrefs.filter (fun href =>
    match parse href with
    | none => false
    | some p => p.scheme == "http")
  if 0 < httpLinks.length then [(WarningHTTPSToHTTPLinks, pageURL :: httpLinks)]
  else []

/-! Keyword check (check-engine file lines 124-139 and 236-253).  The Go code
compiles the regex built as backslash-b QuoteMeta(keyword) backslash-b with
the case-insensitive flag; reMatch below is the semantics of that compiled
regex: a case-insensitive occurrence of the (quoted, hence literal) keyword
whose two ends sit on ASCII word boundaries. -/

/-- ASCII word character, the w class underlying the Go regexp b assertion. -/
def isWordChar (c : Char) : Bool :=
  c.isAlphanum || c == '_'

/-- Word-character test at index i of the content (out of range is non-word). -/
def wordAt (cs : List Char) (i : Nat) : Bool :=
  match cs.get? i with
  | some c => isWordChar c
  | none => false

/-- Go regexp b: a word boundary lies at position i when word-ness differs
across it, the outside of the string counting as non-word. -/
def boundaryAt (cs : List Char) (i : Nat) : Bool :=
  (match i with
   | 0 => false
   | j + 1 => wordAt cs j) != wordAt cs i

/-- Case-insensitive whole-word match of the keyword at position i. -/
def matchAtPos (ks cs : List Char) (i : Nat) : Bool :=
  ((cs.drop i).take ks.length).map Char.toLower == ks.map Char.toLower &&
    boundaryAt cs i && boundaryAt cs (i + ks.length)

/-- Semantics of the compiled keyword regex from getRegex: some position of
the content carries a case-insensitive whole-word occurrence of the keyword. -/
def reMatch (keyword content : String) : Bool :=
  (List.range (content.data.length + 1)).any (fun i =>
    matchAtPos keyword.data content.data i)

/-- A compiled regex, represented by the keyword it was built from; running
it is reMatch of that keyword. -/
structure CompiledRe where
  keyword : String
deriving DecidableEq

/-- The process-wide compiled-regex cache (the compiled map), keyed by
keyword. -/
abbrev RegexCache := List (String × CompiledRe)

def cacheLookup (cache : RegexCache) (k : String) : Option CompiledRe :=
  match cache with
  | [] => none
  | (k', re) :: rest => if k' = k then some re else cacheLookup rest k

/-- getRegex: return the cached compiled regex for the keyword, compiling and
recording it on first use.  QuoteMeta escapes the keyword, so compilation
never fails and the error branch is unreachable.  The Bool records whether a
compile took place. -/
def getRegex (cache : RegexCache) (k : String) : CompiledRe × RegexCache × Bool :=
  match cacheLookup cache k with
  | some re => (re, cache, false)
  | none => (⟨k⟩, (k, (⟨k⟩ : CompiledRe)) :: cache, true)

/-- Every cache entry maps a keyword to the regex compiled from it. -/
def cacheWF (cache : RegexCache) : Prop :=
  ∀ p ∈ cache, p.2 = CompiledRe.mk p.1

/-- strings.Fields, split step: cut the character list at whitespace. -/
def splitWS : List Char → List (List Char)
  | [] => [[]]
  | c :: cs =>
    if c.isWhitespace then [] :: splitWS cs
    else
      match splitWS cs with
      | [] => [[c]]
      | w :: ws => (c :: w) :: ws

/-- strings.Fields: the whitespace-separated words of a string. -/
def fields (s : String) : List String :=
  ((splitWS s.data).filter (fun w => w ≠ [])).map String.mk

/-- The inner matchExists loop of checkKeywords: every word of the phrase
must match; the loop stops at the first failure, threading the regex cache. -/
def matchWords (content : String) : RegexCache → List String → Bool × RegexCache
  | cache, [] => (true, cache)
  | cache, w :: ws =>
    let gr := getRegex cache w
    if reMatch gr.1.keyword content then matchWords content gr.2.1 ws
    else (false, gr.2.1)

/-- Increment of keywordMap[phrase] on a Go map, as an association list. -/
def bump (m : List (String × Nat)) (k : String) : List (String × Nat) :=
  match m with
  | [] => [(k, 1)]
  | (k', v) :: rest => if k' = k then (k', v + 1) :: rest else (k', v) :: bump rest k

/-- checkKeywords: for each keyword phrase, split it into words and count the
phrase iff every word matches the content under its compiled regex. -/
def checkKeywords (content : String) (keywords : List String)
    (m : List (String × Nat)) (cache : RegexCache) : List (String × Nat) × RegexCache :=
  match keywords with
  | [] => (m, cache)
  | phrase :: rest =>
    let pr := matchWords content cache (fields phrase)
    checkKeywords content rest (if pr.1 then bump m phrase else m) pr.2

theorem cacheLookup_wf {cache : RegexCache} (hwf : cacheWF cache) {k : String}
    {re : CompiledRe} (h : cacheLookup cache k = some re) : re = CompiledRe.mk k := by
  induction cache with
  | nil => simp [cacheLookup] at h
  | cons p rest ih =>
    have hp := hwf p (by simp)
    have hrest : cacheWF rest := fun q hq => hwf q (by simp [hq])
    rw [cacheLookup] at h
    by_cases hk : p.1 = k
    · rw [if_pos hk] at h
      cases h
      rw [hp, hk]
    · rw [if_neg hk] at h
      exact ih hrest h

theorem getRegex_keyword {cache : RegexCache} (hwf : cacheWF cache) (k : String) :
    (getRegex cache k).1 = CompiledRe.mk k ∧ cacheWF (getRegex cache k).2.1 := by
  unfold getRegex
  cases hlook : cacheLookup cache k with
  | none =>
    refine ⟨rfl, ?_⟩
    intro p hp
    rcases List.mem_cons.mp hp with h | h
    · rw [h]
    · exact hwf p h
  | some re => exact ⟨cacheLookup_wf hwf hlook, hwf⟩

theorem matchWords_correct (content : String) (ws : List String) :
    ∀ cache : RegexCache, cacheWF cache →
      (matchWords content cache ws).1 = ws.all (fun w => reMatch w content) ∧
      cacheWF (matchWords content cache ws).2 := by
  induction ws with
  | nil => intro cache hwf; exact ⟨rfl, hwf⟩
  | cons w rest ih =>
    intro cache hwf
    obtain ⟨hkey, hwf'⟩ := getRegex_keyword hwf w
    rw [matchWords]
    by_cases hm : reMatch (getRegex cache w).1.keyword content = true
    · rw [if_pos hm]
      obtain ⟨ih1, ih2⟩ := ih (getRegex cache w).2.1 hwf'
      have hmw : reMatch w content = true := by
        rw [hkey] at hm; exact hm
      exact ⟨by rw [ih1, List.all_cons, hmw, Bool.true_and], ih2⟩
    · rw [if_neg hm]
      have hmw : reMatch w content = false := by
        rw [hkey] at hm
        rw [Bool.not_eq_true] at hm
        exact hm
      refine ⟨?_, hwf'⟩
      rw [List.all_cons, hmw, Bool.false_and]

/-- C5: checkKeywords counts a phrase iff every whitespace-separated word of
the phrase occurs in the content as a case-insensitive whole-word match; the
word-boundary regex of a distinct keyword is compiled once — a cached keyword
is returned without recompiling and with the cache unchanged, and a first
compile records the regex so that later lookups find it.  Concretely, the
word foo matches a content containing "Foo," and the phrase "foo bar"
requires both whole words. -/
theorem checkKeywords_spec (content phrase : String) (m : List (String × Nat))
    (cache : RegexCache) (hwf : cacheWF cache) :
    ((checkKeywords content [phrase] m cache).1 =
      if (fields phrase).all (fun w => reMatch w content) then bump m phrase else m) ∧
    (∀ k re, cacheLookup cache k = some re → getRegex cache k = (re, cache, false)) ∧
    (∀ k, cacheLookup cache k = none →
      getRegex cache k = (CompiledRe.mk k, (k, CompiledRe.mk k) :: cache, true) ∧
      cacheLookup ((k, CompiledRe.mk k) :: cache) k = some (CompiledRe.mk k)) ∧
    reMatch "foo" "xx Foo, yy" = true ∧
    (checkKeywords "A Foo, and a bar!" ["foo bar"] [] []).1 = [("foo bar", 1)] ∧
    (checkKeywords "A Foo, and a barn" ["foo bar"] [] []).1 = [] := by
  refine ⟨?_, ?_, ?_, by decide, by decide, by decide⟩
  · obtain ⟨h1, _⟩ := matchWords_correct content (fields phrase) cache hwf
    simp only [checkKeywords, h1]
  · intro k re h
    unfold getRegex
    rw [h]
  · intro k h
    constructor
    · unfold getRegex
      rw [h]
    · simp [cacheLookup]

/-- Closed instance for checkKeywords_spec: the cache well-formedness
hypothesis holds for a concrete cache and the conclusions evaluate. -/
theorem checkKeywords_spec_witness :
    (checkKeywords "deep blue sea" ["blue sea"] [] [("blue", CompiledRe.mk "blue")]).1 =
      [("blue sea", 1)] ∧
    getRegex [("blue", CompiledRe.mk "blue")] "blue" =
      (CompiledRe.mk "blue", [("blue", CompiledRe.mk "blue")], false) := by
  have h := checkKeywords_spec "deep blue sea" "blue sea" []
    [("blue", CompiledRe.mk "blue")] (by intro p hp; simp at hp; rw [hp])
  refine ⟨?_, h.2.1 "blue" (CompiledRe.mk "blue") (by decide)⟩
  rw [h.1]
  decide

/-! Link verifier (check-engine file lines 141-234): the shared liveness
cache linkMap guarded by linkMapMu, the linkWorker loop body, and
isLinkAlive. -/

/-- Shared state of the link verifier: the liveness cache linkMap, the log of
network probes issued (one entry per isLinkAlive call), and the dead links
sent on the results channel. -/
structure LinkState where
  linkMap : List (String × Bool)
  probes : List String
  broken : List String
deriving DecidableEq

def lookupB (m : List (String × Bool)) (k : String) : Option Bool :=
  match m with
  | [] => none
  | (k', v) :: rest => if k' = k then some v else lookupB rest k

def setB (m : List (String × Bool)) (k : String) (v : Bool) : List (String × Bool) :=
  match m with
  | [] => [(k, v)]
  | (k', v') :: rest => if k' = k then (k', v) :: rest else (k', v') :: setB rest k v

/-- One worker's progress through the body of linkWorker for one job.
pc 0: the RLock-guarded read of linkMap; pc 1: the isLinkAlive network probe
(no lock held); pc 2: the Lock-guarded write of linkMap; pc 3: the send of a
dead link on results; pc 4: done. -/
structure WorkerProgress where
  link : String
  pc : Nat
  works : Bool
deriving DecidableEq

/-- One atomic step of the linkWorker body.  A cache hit at the read skips
straight to the report step; a miss proceeds to probe and then write.  Each
locked region of the source is a single step, and the probe between them
holds no lock, exactly as in the source. -/
def stepWorker (alive : String → Bool) (s : LinkState) (w : WorkerProgress) :
    LinkState × WorkerProgress :=
  match w.pc with
  | 0 =>
    match lookupB s.linkMap w.link with
    | some b => (s, { w with works := b, pc := 3 })
    | none => (s, { w with works := false, pc := 1 })
  | 1 => ({ s with probes := s.probes ++ [w.link] },
          { w with works := alive w.link, pc := 2 })
  | 2 => ({ s with linkMap := setB s.linkMap w.link w.works }, { w with pc := 3 })
  | 3 => (if w.works then s else { s with broken := s.broken ++ [w.link] },
          { w with pc := 4 })
  | _ => (s, w)

/-- Interleaved execution of several workers under an explicit schedule: each
schedule entry names the worker that takes the next atomic step. -/
def runSchedule (alive : String → Bool) (s : LinkState) (ws : List WorkerProgress) :
    List Nat → LinkState × List WorkerProgress
  | [] => (s, ws)
  | i :: rest =>
    match ws.get? i with
    | none => runSchedule alive s ws rest
    | some w =>
      let p := stepWorker alive s w
      runSchedule alive p.1 (ws.set i p.2) rest

/-- Full execution of the linkWorker body for one job (a lookup that does not
overlap any other lookup): four atomic steps always reach pc 4. -/
def runJob (alive : String → Bool) (s : LinkState) (link : String) : LinkState :=
  let p1 := stepWorker alive s ⟨link, 0, false⟩
  let p2 := stepWorker alive p1.1 p1.2
  let p3 := stepWorker alive p2.1 p2.2
  (stepWorker alive p3.1 p3.2).1

/-- One worker draining its jobs channel: sequential runs of the loop body. -/
def runJobs (alive : String → Bool) (s : LinkState) (jobs : List String) : LinkState :=
  jobs.foldl (runJob alive) s

/-- Number of network probes issued for a given URL. -/
def probeCount (s : LinkState) (u : String) : Nat :=
  (s.probes.filter (fun x => x == u)).length

/-- C3 counterexample: two workers each handling the URL "u" concurrently.
The schedule lets both take their RLock-guarded read (both miss) before
either probes; each then probes the network, so the URL is probed twice in
one crawl — the check and the recording are not one atomic section. -/
theorem linkWorker_double_probe :
    (runSchedule (fun _ => false) ⟨[], [], []⟩
        [⟨"u", 0, false⟩, ⟨"u", 0, false⟩] [0, 1, 0, 1, 0, 1, 0, 1]).1.probes = ["u", "u"] ∧
    probeCount (runSchedule (fun _ => false) ⟨[], [], []⟩
        [⟨"u", 0, false⟩, ⟨"u", 0, false⟩] [0, 1, 0, 1, 0, 1, 0, 1]).1 "u" = 2 := by
  constructor
  · decide
  · decide

theorem runJob_cached (alive : String → Bool) (s : LinkState) (link : String) (b : Bool)
    (h : lookupB s.linkMap link = some b) :
    (runJob alive s link).probes = s.probes ∧ (runJob alive s link).linkMap = s.linkMap := by
  unfold runJob
  simp only [stepWorker, h]
  split <;> simp

theorem runJob_miss (alive : String → Bool) (s : LinkState) (link : String)
    (h : lookupB s.linkMap link = none) :
    (runJob alive s link).probes = s.probes ++ [link] ∧
    (runJob alive s link).linkMap = setB s.linkMap link (alive link) := by
  unfold runJob
  simp only [stepWorker, h]
  split <;> simp

theorem lookupB_setB_self (m : List (String × Bool)) (k : String) (v : Bool) :
    lookupB (setB m k v) k = some v := by
  induction m with
  | nil => simp [setB, lookupB]
  | cons p rest ih =>
    by_cases hk : p.1 = k
    · simp [setB, lookupB, hk]
    · simp [setB, lookupB, hk, ih]

theorem lookupB_setB_other (m : List (String × Bool)) (k u : String) (v : Bool)
    (hne : u ≠ k) : lookupB (setB m k v) u = lookupB m u := by
  have hku : ¬ k = u := fun h => hne h.symm
  induction m with
  | nil => simp [setB, lookupB, hku]
  | cons p rest ih =>
    by_cases hk : p.1 = k
    · have hpu : ¬ p.1 = u := by rw [hk]; exact hku
      simp [setB, lookupB, hk, hpu, hku]
    · simp [setB, lookupB, hk, ih]

/-- Invariant tying probes to the cache: each URL has been probed at most
once, and a probed URL is present in the cache. -/
def ProbeInv (s : LinkState) : Prop :=
  ∀ u, probeCount s u ≤ 1 ∧ (1 ≤ probeCount s u → lookupB s.linkMap u ≠ none)

theorem probeCount_append (probes tail : List String) (m : List (String × Bool))
    (br : List String) (u : String) :
    probeCount ⟨m, probes ++ tail, br⟩ u =
      probeCount ⟨m, probes, br⟩ u + probeCount ⟨m, tail, br⟩ u := by
  simp [probeCount, List.filter_append]

theorem runJob_inv (alive : String → Bool) (s : LinkState) (link : String)
    (hinv : ProbeInv s) : ProbeInv (runJob alive s link) := by
  cases hlook : lookupB s.linkMap link with
  | some b =>
    obtain ⟨hp, hm⟩ := runJob_cached alive s link b hlook
    intro u
    have hcount : probeCount (runJob alive s link) u = probeCount s u := by
      simp [probeCount, hp]
    rw [hcount, hm]
    exact hinv u
  | none =>
    obtain ⟨hp, hm⟩ := runJob_miss alive s link hlook
    intro u
    have hcount : probeCount (runJob alive s link) u =
        probeCount s u + (if link = u then 1 else 0) := by
      simp only [probeCount, hp, List.filter_append]
      by_cases hl : link = u <;> simp [hl, List.length_append]
    by_cases hu : u = link
    · subst hu
      have h0 : probeCount s u = 0 := by
        by_contra hne
        exact (hinv u).2 (by omega) hlook
      rw [hcount, hm, h0]
      refine ⟨by simp, fun _ => ?_⟩
      rw [lookupB_setB_self]
      simp
    · have hlu : ¬ link = u := fun h => hu h.symm
      have hif : (if link = u then 1 else 0) = 0 := by simp [hlu]
      rw [hcount, hm, hif, lookupB_setB_other s.linkMap link u (alive link) hu]
      simpa using hinv u

/-- Sequential runs preserve the probe invariant. -/
theorem runJobs_inv (alive : String → Bool) (jobs : List String) (s : LinkState)
    (hinv : ProbeInv s) : ProbeInv (runJobs alive s jobs) := by
  induction jobs generalizing s with
  | nil => exact hinv
  | cons j rest ih => exact ih (runJob alive s j) (runJob_inv alive s j hinv)

/-- C3 (amended): the cache does memoize non-overlapping lookups — a lookup
whose RLock-guarded read finds the URL already cached issues no probe and
leaves the cache unchanged, and across any sequence of non-overlapping
lookups each URL is probed at most once.  (As linkWorker_double_probe shows,
the original claim's guarantee for concurrent first-time lookups does not
hold: the probe and the cache write are not in the same critical section as
the read, so two overlapping first-time lookups may both probe.) -/
theorem linkWorker_memoized (alive : String → Bool) (s : LinkState) (link : String) (b : Bool)
    (hcached : lookupB s.linkMap link = some b) (jobs : List String) (u : String) :
    (runJob alive s link).probes = s.probes ∧
    (runJob alive s link).linkMap = s.linkMap ∧
    probeCount (runJobs alive ⟨[], [], []⟩ jobs) u ≤ 1 := by
  obtain ⟨hp, hm⟩ := runJob_cached alive s link b hcached
  refine ⟨hp, hm, ?_⟩
  have hinv0 : ProbeInv ⟨[], [], []⟩ := by
    intro v
    constructor
    · simp [probeCount]
    · intro h
      simp [probeCount] at h
  exact (runJobs_inv alive jobs ⟨[], [], []⟩ hinv0 u).1

/-- Closed instance for linkWorker_memoized: a cached URL is not re-probed,
and a duplicated job list still probes each URL once. -/
theorem linkWorker_memoized_witness :
    (runJob (fun _ => false) ⟨[("u", false)], ["u"], []⟩ "u").probes = ["u"] ∧
    probeCount (runJobs (fun _ => false) ⟨[], [], []⟩ ["a", "a", "b"]) "a" ≤ 1 := by
  have h := linkWorker_memoized (fun _ => false) ⟨[("u", false)], ["u"], []⟩ "u" false
    (by decide) ["a", "a", "b"] "a"
  exact ⟨h.1, h.2.2⟩

/-! isLinkAlive (check-engine file lines 209-234). -/

/-- Observable outcome of isLinkAlive: a normal Bool return, or a runtime
panic from dereferencing a nil request. -/
inductive ExecResult
  | ok (b : Bool)
  | nilPanic
deriving DecidableEq

/-- The request built by http.NewRequest, as far as the source uses it. -/
structure Request where
  url : String
deriving DecidableEq

/-- strings.ContainsCtlByte, the test net/url applies to a raw URL: an ASCII
control character (below space, or DEL) makes parsing — and hence
http.NewRequest — fail, returning a nil request alongside the error. -/
def containsCtlByte (url : String) : Bool :=
  url.data.any (fun c => c.toNat < 32 || c.toNat == 127)

/-- http.NewRequest (net/http, external): none models the nil request
returned together with a non-nil error for an unparseable URL. -/
def newRequest (url : String) : Option Request :=
  if containsCtlByte url then none else some ⟨url⟩

/-- isLinkAlive: the source sets the Range header on the request (line 221)
before examining the error from http.NewRequest (line 222), so when the
request is nil the header write dereferences nil and panics — the none branch
below.  For a well-formed request, probe abstracts client.Do together with
the 2xx/3xx status test (a transport error counting as dead). -/
def isLinkAlive (probe : String → Bool) (url : String) : ExecResult :=
  match newRequest url with
  | none => ExecResult.nilPanic
  | some req => ExecResult.ok (probe req.url)

/-- C10: a URL that request construction rejects — here one containing a NUL
control character — makes isLinkAlive dereference the nil request and panic
instead of classifying the link as dead, while any URL free of control bytes
takes the normal path and returns the probe's classification. -/
theorem isLinkAlive_nil_panic (probe : String → Bool) :
    isLinkAlive probe "http://example.com/a\x00b" = ExecResult.nilPanic ∧
    newRequest "http://example.com/a\x00b" = none ∧
    (∀ url, containsCtlByte url = false → isLinkAlive probe url = ExecResult.ok (probe url)) := by
  have hctl : containsCtlByte "http://example.com/a\x00b" = true := by decide
  refine ⟨by simp [isLinkAlive, newRequest, hctl], by simp [newRequest, hctl], ?_⟩
  intro url h
  simp [isLinkAlive, newRequest, h]

/-- Closed instance for isLinkAlive_nil_panic at a concrete prober and a
control-byte-free URL. -/
theorem isLinkAlive_nil_panic_witness :
    isLinkAlive (fun _ => true) "http://example.com/a\x00b" = ExecResult.nilPanic ∧
    isLinkAlive (fun _ => true) "http://example.com/ok" = ExecResult.ok true :=
  ⟨(isLinkAlive_nil_panic (fun _ => true)).1,
   (isLinkAlive_nil_panic (fun _ => true)).2.2 "http://example.com/ok" (by decide)⟩

/-! Worker pool (second file of audit_page.go): the deduplicating AddTask and
the worker loop.  AddTask holds processedMux for its whole body, so every
concurrent execution of AddTask calls is a sequence of the atomic transition
addTask below, in some order; the theorems quantify over all such sequences. -/

/-- The pool bookkeeping AddTask touches: the processed set (a Go map used as
a set, here the list of URLs marked true) and the task queue. -/
structure PoolSchedState where
  processed : List String
  taskQueue : List String
deriving DecidableEq

/-- AddTask: under the lock, an already-processed URL is rejected with no
state change; otherwise the URL is marked processed and enqueued, and true is
returned. -/
def addTask (wp : PoolSchedState) (data : String) : Bool × PoolSchedState :=
  if data ∈ wp.processed then (false, wp)
  else (true, { processed := wp.processed ++ [data], taskQueue := wp.taskQueue ++ [data] })

/-- A sequence of AddTask calls (one interleaving of any set of concurrent
callers), returning the final state and each call's return value. -/
def runAddTasks (wp : PoolSchedState) : List String → PoolSchedState × List Bool
  | [] => (wp, [])
  | c :: rest =>
    let p := addTask wp c
    let q := runAddTasks p.2 rest
    (q.1, p.1 :: q.2)

/-- How many calls with argument u returned true. -/
def acceptedCount (calls : List String) (outs : List Bool) (u : String) : Nat :=
  ((calls.zip outs).filter (fun p => p.1 == u && p.2)).length

theorem runAddTasks_count (u : String) (calls : List String) (wp : PoolSchedState) :
    acceptedCount calls (runAddTasks wp calls).2 u =
      if u ∈ calls ∧ u ∉ wp.processed then 1 else 0 := by
  induction calls generalizing wp with
  | nil => simp [runAddTasks, acceptedCount]
  | cons c rest ih =>
    have hstep : acceptedCount (c :: rest) (runAddTasks wp (c :: rest)).2 u =
        (if c = u ∧ (addTask wp c).1 = true then 1 else 0) +
          acceptedCount rest (runAddTasks (addTask wp c).2 rest).2 u := by
      by_cases hcu : c = u
      · subst hcu
        by_cases hout : (addTask wp c).1 = true
        · simp [runAddTasks, acceptedCount, List.filter_cons, hout]
          omega
        · rw [Bool.not_eq_true] at hout
          simp [runAddTasks, acceptedCount, List.filter_cons, hout]
      · simp [runAddTasks, acceptedCount, List.filter_cons, hcu]
    rw [hstep, ih]
    by_cases hcu : c = u
    · subst hcu
      by_cases hmem : c ∈ wp.processed
      · have hout : (addTask wp c).1 = false := by simp [addTask, hmem]
        have hwp : (addTask wp c).2 = wp := by simp [addTask, hmem]
        rw [hwp]
        simp [hout, hmem]
      · have hout : (addTask wp c).1 = true := by simp [addTask, hmem]
        have hwp : (addTask wp c).2.processed = wp.processed ++ [c] := by
          simp [addTask, hmem]
        have hin : c ∈ (addTask wp c).2.processed := by simp [hwp]
        simp [hout, hmem, hin]
    · have hproc : (u ∈ (addTask wp c).2.processed) ↔ u ∈ wp.processed := by
        unfold addTask
        split_ifs with h
        · exact Iff.rfl
        · simp only [List.mem_append, List.mem_singleton]
          constructor
          · rintro (h1 | h1)
            · exact h1
            · exact absurd h1.symm hcu
          · intro h1
            exact Or.inl h1
      have hcal : (u ∈ c :: rest) ↔ u ∈ rest := by
        simp only [List.mem_cons]
        constructor
        · rintro (h1 | h1)
          · exact absurd h1.symm hcu
          · exact h1
        · intro h1
          exact Or.inr h1
      simp only [hcu, false_and, if_false, Nat.zero_add, hproc, hcal]

/-- C1: AddTask returns true and enqueues the URL iff the URL has never been
accepted by this pool; a rejected call changes nothing; and over any sequence
of AddTask calls starting from a fresh pool — covering every interleaving of
concurrent callers, since the whole body runs under processedMux — each
distinct URL that is ever passed is accepted exactly once. -/
theorem addTask_exactly_once (wp : PoolSchedState) (u : String) (calls : List String) :
    ((addTask wp u).1 = true ↔ u ∉ wp.processed) ∧
    ((addTask wp u).1 = true →
      (addTask wp u).2.taskQueue = wp.taskQueue ++ [u] ∧
      u ∈ (addTask wp u).2.processed) ∧
    ((addTask wp u).1 = false → (addTask wp u).2 = wp) ∧
    acceptedCount calls (runAddTasks ⟨[], []⟩ calls).2 u = if u ∈ calls then 1 else 0 := by
  refine ⟨?_, ?_, ?_, ?_⟩
  · unfold addTask
    split_ifs with h <;> simp [h]
  · unfold addTask
    split_ifs with h <;> simp [h]
  · unfold addTask
    split_ifs with h <;> simp [h]
  · rw [runAddTasks_count]
    simp

/-- Closed instance for addTask_exactly_once: a fresh pool accepts "a", and
the call sequence ["a", "b", "a"] accepts "a" exactly once. -/
theorem addTask_exactly_once_witness :
    (addTask ⟨[], []⟩ "a").1 = true ∧
    acceptedCount ["a", "b", "a"] (runAddTasks ⟨[], []⟩ ["a", "b", "a"]).2 "a" = 1 := by
  have h := addTask_exactly_once ⟨[], []⟩ "a" ["a", "b", "a"]
  refine ⟨h.1.mpr (by simp), ?_⟩
  rw [h.2.2.2]
  simp

/-- A task's outcome as collected by the pool: the input string, the typed
result, and the error returned by the task function. -/
structure TaskResult (T : Type) where
  data : String
  result : T
  error : Option String
deriving DecidableEq

/-- The pool worker loop: every task pulled from the queue produces exactly
one TaskResult sent to the collector; an error from the task function is
stored in the result (and logged) and the loop continues with the next task. -/
def runWorker {T : Type} (taskFunc : String → T × Option String) (queue : List String) :
    List (TaskResult T) :=
  queue.map (fun data => ⟨data, (taskFunc data).1, (taskFunc data).2⟩)

/-! Per-page audit (audit_page.go) and the handler's checks resolution. -/

/-- Checks configuration (check-engine file lines 14-23). -/
structure Checks where
  lighthouse : Bool
  headings : Bool
  title : Bool
  description : Bool
  keywords : Bool
  images : Bool
  links : Bool
  security : Bool
deriving DecidableEq

/-- Appending evidence rows under a type of a per-page or crawl-wide map:
Go m[t] = append(m[t], rows...). -/
def addEvs : WarningMap → WarningType → List (List String) → WarningMap
  | [], t, evs => [(t, evs)]
  | (t', l) :: rest, t, evs =>
    if t' = t then (t', l ++ evs) :: rest else (t', l) :: addEvs rest t evs

/-- mergeWarnings (audit_page.go lines 185-189): each check row becomes one
new evidence occurrence under its type. -/
def mergeWarnings (allW : WarningMap) (pageWarnings : CheckWarnings) : WarningMap :=
  pageWarnings.foldl (fun acc e => addEvs acc e.1 [e.2]) allW

/-- checkBrokenLinks: the dead links of a page produce one links_broken row
listing the page URL followed by each dead link.  alive is the deterministic
liveness answer (probe bookkeeping is the linkWorker model above; the
sequential job order stands in for the order of the results channel).  The
checkedPaths allow-list follows the call in audit_page.go line 151; links on
it are skipped (spec 4.3: pre-verified links are not re-checked). -/
def checkBrokenLinks (alive : String → Bool) (pageURL : String) (links : List String)
    (checkedPaths : List String) : CheckWarnings :=
  let dead := links.filter (fun l => !(checkedPaths.contains l) && !(alive l))
  if 0 < dead.length then [(WarningLinksBroken, pageURL :: dead)] else []

/-- The page-like file extensions (audit_page.go lines 31-39). -/
def pageExtensions : List String :=
  ["html", "htm", "xml", "aspx", "php", "asp", "jsp"]

/-- getFileExtension (audit_page.go lines 13-29): the part after the last dot
of the parsed URL's path when the path has one, otherwise "".  url.Parse is
external; a parse error (none) yields "". -/
def getFileExtension (parse : String → Option ParsedURL) (urlToVisit : String) : String :=
  match parse urlToVisit with
  | none => ""
  | some u =>
    let parts := u.path.splitOn "."
    if 1 < parts.length then parts.getLastD "" else ""

structure AuditPageParams where
  pageURL : String
  keywords : List String
  checks : Checks
  checkedPaths : List String

/-- AuditPageResult (audit_page.go lines 50-58). -/
structure AuditPageResult where
  warnings : WarningMap
  url : String
  links : List String
  h1Texts : List String
  title : String
  error : String
  keywordMatches : List (String × Nat)
deriving DecidableEq

/-- The data the renderer extracts from a page (title, body text, meta
description, H1 texts, link hrefs — audit_page.go lines 78-116). -/
structure PageData where
  title : String
  pageText : String
  metaDesc : String
  h1Texts : List String
  linkHrefs : List String
deriving DecidableEq

/-- AuditPage (audit_page.go lines 61-183).  The chromedp render is external,
passed as a function returning the extracted PageData or the error text; the
network prober and url.Parse are likewise parameters.  A URL with a file
extension outside the page-like set returns a zero result without rendering;
a render error returns the URL, the error text and an empty warning map; a
rendered page runs exactly the checks its toggles enable and keeps only
same-host links.  (When the page URL itself does not parse, link hrefs are
not compared; the keyword-match tally starts from the empty process-wide
regex cache, which does not affect the counts.) -/
def AuditPage (parse : String → Option ParsedURL) (render : String → Except String PageData)
    (alive : String → Bool) (p : AuditPageParams) : AuditPageResult :=
  let fileExt := getFileExtension parse p.pageURL
  if fileExt ≠ "" ∧ fileExt ∉ pageExtensions then
    { warnings := [], url := p.pageURL, links := [], h1Texts := [], title := "",
      error := "", keywordMatches := [] }
  else
    match render p.pageURL with
    | Except.error e =>
      { warnings := [], url := p.pageURL, links := [], h1Texts := [], title := "",
        error := e, keywordMatches := [] }
    | Except.ok pd =>
      let w1 := if p.checks.headings then mergeWarnings [] (checkH1 pd.h1Texts p.pageURL) else []
      let w2 := if p.checks.title then mergeWarnings w1 (checkTitle pd.title p.pageURL) else w1
      let w3 := if p.checks.description then
          mergeWarnings w2 (checkDescription pd.metaDesc p.pageURL) else w2
      let w4 := if p.checks.links then
          mergeWarnings w3 (checkBrokenLinks alive p.pageURL pd.linkHrefs p.checkedPaths) else w3
      let w5 := if p.checks.security then
          mergeWarnings w4 (checkLinkProtocol parse pd.linkHrefs p.pageURL) else w4
      let km := if p.checks.keywords ∧ 0 < p.keywords.length then
          (checkKeywords (pd.title ++ " " ++ pd.pageText) p.keywords [] []).1 else []
      let sameHostLinks := pd.linkHrefs.filter (fun href =>
        match parse href, parse p.pageURL with
        | some ph, some pb => ph.host == pb.host
        | _, _ => false)
      { warnings := w5, url := p.pageURL, links := sameHostLinks, h1Texts := pd.h1Texts,
        title := pd.title, error := "", keywordMatches := km }

/-- All toggles on: the default the handler builds when the request omits
checks (part_000 lines 72-83). -/
def allChecksEnabled : Checks :=
  ⟨true, true, true, true, true, true, true, true⟩

/-- The zero value of Checks: what the declaration var checks Checks leaves
when no branch assigns to it. -/
def zeroChecks : Checks :=
  ⟨false, false, false, false, false, false, false, false⟩

/-- Checks resolution in auditHandler (part_000 lines 71-83): checks starts
as the zero value and is assigned only when req.Checks is nil; a non-nil
req.Checks is never read. -/
def resolveChecks : Option Checks → Checks
  | none => allChecksEnabled
  | some _ => zeroChecks

/-- The task function Audit hands the pool (audit_full_site.go lines
143-152): audit the page with the crawl's keywords and checks (and no
checkedPaths) and always return a nil error.  The unsynchronized pagesSoFar
counter does not affect the result. -/
def auditTaskFunc (parse : String → Option ParsedURL)
    (render : String → Except String PageData) (alive : String → Bool)
    (keywords : List String) (checks : Checks) (pageURL : String) :
    AuditPageResult × Option String :=
  (AuditPage parse render alive ⟨pageURL, keywords, checks, []⟩, none)

/-- C9: whatever toggle values a request's non-null checks object carries,
the handler passes the zero value of Checks to Audit, so every check is
disabled — a page audited under the zero configuration produces no warnings
and no keyword matches whatever the renderer returns — while only a request
omitting the checks field gets the all-enabled configuration. -/
theorem auditHandler_checks_ignored (c : Checks) (parse : String → Option ParsedURL)
    (render : String → Except String PageData) (alive : String → Bool)
    (u : String) (kws cps : List String) :
    resolveChecks (some c) = zeroChecks ∧
    resolveChecks none = allChecksEnabled ∧
    (AuditPage parse render alive ⟨u, kws, zeroChecks, cps⟩).warnings = [] ∧
    (AuditPage parse render alive ⟨u, kws, zeroChecks, cps⟩).keywordMatches = [] := by
  have h : (AuditPage parse render alive ⟨u, kws, zeroChecks, cps⟩).warnings = [] ∧
      (AuditPage parse render alive ⟨u, kws, zeroChecks, cps⟩).keywordMatches = [] := by
    unfold AuditPage
    by_cases hext : getFileExtension parse u ≠ "" ∧ getFileExtension parse u ∉ pageExtensions
    · rw [if_pos hext]
      exact ⟨rfl, rfl⟩
    · rw [if_neg hext]
      cases hr : render u with
      | error e => exact ⟨rfl, rfl⟩
      | ok pd => exact ⟨rfl, rfl⟩
  exact ⟨rfl, rfl, h.1, h.2⟩

/-! Crawl report assembly (audit_full_site.go lines 207-270). -/

def MaxAuditPages : Nat := 20

/-- PageAuditInfo (audit_full_site.go lines 52-58); the StatusCode field is
never assigned and is omitted. -/
structure PageAuditInfo where
  url : String
  title : String
  warnings : WarningMap
  error : String
deriving DecidableEq

/-- The PageAuditInfo built from one AuditPageResult (lines 221-226). -/
def pageInfoOf (a : AuditPageResult) : PageAuditInfo :=
  ⟨a.url, a.title, a.warnings, a.error⟩

/-- Result-processing loop of Audit (lines 216-245): each collected
TaskResult becomes one page, and the loop breaks as soon as the page list has
reached MaxAuditPages.  The h1Map/titleMap built by the same loop never reach
the returned AuditResult (their consumer is commented out) and are omitted. -/
def buildPages (acc : List PageAuditInfo) :
    List (TaskResult AuditPageResult) → List PageAuditInfo
  | [] => acc
  | r :: rest =>
    let acc' := acc ++ [pageInfoOf r.result]
    if MaxAuditPages ≤ acc'.length then acc' else buildPages acc' rest

/-- Inner loop of the flattening (line 252-254): append one page's evidence
rows under their types into the accumulating crawl-wide map. -/
def mergeInto (acc pw : WarningMap) : WarningMap :=
  pw.foldl (fun a e => addEvs a e.1 e.2) acc

/-- Flattening loop (lines 250-255): append every page's evidence rows under
their types into one crawl-wide map. -/
def flattenPages (pages : List PageAuditInfo) : WarningMap :=
  pages.foldl (fun acc p => mergeInto acc p.warnings) []

/-- AuditResult (audit_full_site.go lines 43-46). -/
structure AuditResult where
  pages : List String
  warnings : WarningMap
deriving DecidableEq

/-- The report Audit returns once the pool has stopped (lines 207-270): the
capped pages' URLs and the flattened warning map built from those pages. -/
def auditReport (taskResults : List (TaskResult AuditPageResult)) : AuditResult :=
  let pages := buildPages [] taskResults
  ⟨pages.map (fun p => p.url), flattenPages pages⟩

theorem buildPages_eq_take (rs : List (TaskResult AuditPageResult)) :
    ∀ acc : List PageAuditInfo, acc.length < MaxAuditPages →
      buildPages acc rs =
        acc ++ (rs.take (MaxAuditPages - acc.length)).map (fun r => pageInfoOf r.result) := by
  induction rs with
  | nil =>
    intro acc _
    simp [buildPages]
  | cons r rest ih =>
    intro acc hacc
    rw [buildPages]
    by_cases hfull : MaxAuditPages ≤ (acc ++ [pageInfoOf r.result]).length
    · rw [if_pos hfull]
      have hone : MaxAuditPages - acc.length = 1 := by
        simp only [List.length_append, List.length_cons, List.length_nil] at hfull
        omega
      rw [hone]
      simp
    · rw [if_neg hfull]
      have hlt : (acc ++ [pageInfoOf r.result]).length < MaxAuditPages := by omega
      rw [ih _ hlt]
      have hsub : MaxAuditPages - acc.length = (MaxAuditPages - (acc.length + 1)) + 1 := by
        simp only [List.length_append, List.length_cons, List.length_nil] at hfull
        omega
      rw [hsub]
      simp [List.take_succ_cons, List.length_append]

/-- C2: the final report's page list never exceeds MaxAuditPages (20), and
the whole report — page list and flattened warning map alike — is built from
the first MaxAuditPages collected results only: results beyond the cap, even
ones that completed concurrently before the cap check was evaluated, do not
reach the report. -/
theorem audit_page_cap (rs : List (TaskResult AuditPageResult)) :
    (auditReport rs).pages.length ≤ MaxAuditPages ∧
    auditReport rs = auditReport (rs.take MaxAuditPages) := by
  have h1 := buildPages_eq_take rs [] (by decide)
  have h2 := buildPages_eq_take (rs.take MaxAuditPages) [] (by decide)
  constructor
  · simp only [auditReport, h1, List.nil_append, List.length_map, List.length_take]
    simp [MaxAuditPages]
  · simp [auditReport, h1, h2, List.take_take]

/-- C8: a page whose rendering fails yields a result carrying that URL, the
error text and an empty warning map; the task function returns a nil error
(it never raises); the worker loop still deposits exactly one result per
queued task; and a collected result within the page cap keeps its URL in the
final report's page list — the failure halts neither sibling tasks nor the
crawl. -/
theorem render_failure_recorded (parse : String → Option ParsedURL)
    (render : String → Except String PageData) (alive : String → Bool)
    (kws : List String) (checks : Checks) (u e : String)
    (hext : ¬(getFileExtension parse u ≠ "" ∧ getFileExtension parse u ∉ pageExtensions))
    (hfail : render u = Except.error e)
    (queue : List String) (rs : List (TaskResult AuditPageResult))
    (r : TaskResult AuditPageResult) (hr : r ∈ rs.take MaxAuditPages) :
    AuditPage parse render alive ⟨u, kws, checks, []⟩ = ⟨[], u, [], [], "", e, []⟩ ∧
    (auditTaskFunc parse render alive kws checks u).2 = none ∧
    (runWorker (auditTaskFunc parse render alive kws checks) queue).length = queue.length ∧
    r.result.url ∈ (auditReport rs).pages := by
  refine ⟨?_, rfl, by simp [runWorker], ?_⟩
  · unfold AuditPage
    rw [if_neg hext, hfail]
  · have h1 := buildPages_eq_take rs [] (by decide)
    simp only [auditReport, h1, List.nil_append, List.map_map]
    exact List.mem_map_of_mem _ hr

/-- Closed instance for render_failure_recorded: a failing render is still a
page of the report, with its error text and empty warnings. -/
theorem render_failure_recorded_witness :
    AuditPage (fun _ => none) (fun _ => Except.error "nav failed") (fun _ => true)
      ⟨"https://x.com", [], allChecksEnabled, []⟩ =
      ⟨[], "https://x.com", [], [], "", "nav failed", []⟩ ∧
    "https://x.com" ∈
      (auditReport [⟨"https://x.com", ⟨[], "https://x.com", [], [], "", "nav failed", []⟩,
        none⟩]).pages := by
  have h := render_failure_recorded (fun _ => none) (fun _ => Except.error "nav failed")
    (fun _ => true) [] allChecksEnabled "https://x.com" "nav failed" (by decide) rfl []
    [⟨"https://x.com", ⟨[], "https://x.com", [], [], "", "nav failed", []⟩, none⟩]
    ⟨"https://x.com", ⟨[], "https://x.com", [], [], "", "nav failed", []⟩, none⟩ (by decide)
  exact ⟨h.1, h.2.2.2⟩

/-! Round-trip between per-page warning maps and the flattened crawl map. -/

theorem lookupWM_addEvs_self (m : WarningMap) (t : WarningType)
    (evs : List (List String)) :
    lookupWM (addEvs m t evs) t = lookupWM m t ++ evs := by
  induction m with
  | nil => simp [addEvs, lookupWM]
  | cons e rest ih =>
    by_cases h : e.1 = t
    · simp [addEvs, lookupWM, h]
    · simp [addEvs, lookupWM, h, ih]

theorem lookupWM_addEvs_other (m : WarningMap) (t t' : WarningType)
    (evs : List (List String)) (h : t' ≠ t) :
    lookupWM (addEvs m t evs) t' = lookupWM m t' := by
  have hne : ¬ t = t' := fun hh => h hh.symm
  induction m with
  | nil => simp [addEvs, lookupWM, hne]
  | cons e rest ih =>
    by_cases he : e.1 = t
    · have het' : ¬ e.1 = t' := by rw [he]; exact hne
      simp [addEvs, lookupWM, he, het', hne]
    · by_cases het' : e.1 = t'
      · simp [addEvs, lookupWM, he, het', h]
      · simp [addEvs, lookupWM, he, het', ih]

theorem lookupWM_mergeInto_not_mem (pw : WarningMap) (t : WarningType)
    (h : t ∉ pw.map Prod.fst) :
    ∀ acc, lookupWM (mergeInto acc pw) t = lookupWM acc t := by
  induction pw with
  | nil => intro acc; rfl
  | cons e rest ih =>
    intro acc
    have hne : t ≠ e.1 := by
      intro hh
      exact h (by simp [hh])
    have hrest : t ∉ rest.map Prod.fst := by
      intro hh
      exact h (by simp [hh])
    show lookupWM (mergeInto (addEvs acc e.1 e.2) rest) t = lookupWM acc t
    rw [ih hrest, lookupWM_addEvs_other _ _ _ _ hne]

theorem lookupWM_mergeInto (pw : WarningMap) (t : WarningType)
    (hnd : (pw.map Prod.fst).Nodup) :
    ∀ acc, lookupWM (mergeInto acc pw) t = lookupWM acc t ++ lookupWM pw t := by
  induction pw with
  | nil => intro acc; simp [mergeInto, lookupWM]
  | cons e rest ih =>
    intro acc
    rw [List.map_cons] at hnd
    have hnotmem : e.1 ∉ rest.map Prod.fst := (List.nodup_cons.mp hnd).1
    have hnd' : (rest.map Prod.fst).Nodup := (List.nodup_cons.mp hnd).2
    show lookupWM (mergeInto (addEvs acc e.1 e.2) rest) t = _
    by_cases he : e.1 = t
    · have hnotin : t ∉ rest.map Prod.fst := he ▸ hnotmem
      rw [lookupWM_mergeInto_not_mem rest t hnotin, he, lookupWM_addEvs_self]
      simp [lookupWM, he]
    · rw [ih hnd', lookupWM_addEvs_other _ _ _ _ (fun hh => he hh.symm)]
      simp [lookupWM, he]

theorem lookupWM_flattenPages (pages : List PageAuditInfo) (t : WarningType)
    (hkeys : ∀ q ∈ pages, (q.warnings.map Prod.fst).Nodup) :
    lookupWM (flattenPages pages) t =
      (pages.map (fun q => lookupWM q.warnings t)).flatten := by
  have hgen : ∀ (ps : List PageAuditInfo), (∀ q ∈ ps, (q.warnings.map Prod.fst).Nodup) →
      ∀ acc, lookupWM (ps.foldl (fun a q => mergeInto a q.warnings) acc) t =
        lookupWM acc t ++ (ps.map (fun q => lookupWM q.warnings t)).flatten := by
    intro ps
    induction ps with
    | nil => intro _ acc; simp
    | cons q rest ih =>
      intro hk acc
      have hq := hk q (by simp)
      have hrest : ∀ q' ∈ rest, (q'.warnings.map Prod.fst).Nodup :=
        fun q' hq' => hk q' (by simp [hq'])
      show lookupWM (rest.foldl _ (mergeInto acc q.warnings)) t = _
      rw [ih hrest, lookupWM_mergeInto q.warnings t hq]
      simp [List.append_assoc]
  have h := hgen pages hkeys []
  simpa [flattenPages, lookupWM] using h

theorem lookupWM_cases (m : WarningMap) (t : WarningType) :
    lookupWM m t = [] ∨ (t, lookupWM m t) ∈ m := by
  induction m with
  | nil => exact Or.inl rfl
  | cons e rest ih =>
    by_cases he : e.1 = t
    · right
      have hlk : lookupWM (e :: rest) t = e.2 := by simp [lookupWM, he]
      rw [hlk]
      have hee : (t, e.2) = e := by rw [← he]
      rw [hee]
      exact List.mem_cons_self e rest
    · have hlk : lookupWM (e :: rest) t = lookupWM rest t := by simp [lookupWM, he]
      rw [hlk]
      rcases ih with h | h
      · exact Or.inl h
      · exact Or.inr (List.mem_cons_of_mem _ h)

theorem lookupWM_head (q : PageAuditInfo) (t : WarningType)
    (hq : ∀ e ∈ q.warnings, ∀ ev ∈ e.2, ev.head? = some q.url) :
    ∀ ev ∈ lookupWM q.warnings t, ev.head? = some q.url := by
  rcases lookupWM_cases q.warnings t with h | h
  · rw [h]
    intro ev hev
    simp at hev
  · intro ev hev
    exact hq _ h ev hev

theorem filter_page_self (l : List (List String)) (purl : String)
    (h : ∀ ev ∈ l, ev.head? = some purl) :
    l.filter (fun ev => ev.head? == some purl) = l := by
  induction l with
  | nil => rfl
  | cons ev rest ih =>
    have hev := h ev (by simp)
    have hrest := fun ev' hev' => h ev' (List.mem_cons_of_mem _ hev')
    rw [List.filter_cons]
    simp only [hev, beq_self_eq_true, if_pos]
    rw [ih hrest]

theorem filter_page_other (l : List (List String)) (qurl purl : String)
    (hne : qurl ≠ purl) (h : ∀ ev ∈ l, ev.head? = some qurl) :
    l.filter (fun ev => ev.head? == some purl) = [] := by
  induction l with
  | nil => rfl
  | cons ev rest ih =>
    have hev := h ev (by simp)
    have hrest := fun ev' hev' => h ev' (List.mem_cons_of_mem _ hev')
    rw [List.filter_cons]
    have hbeq : (ev.head? == some purl) = false := by
      rw [hev]
      simp [hne]
    rw [hbeq]
    simp only [if_neg Bool.false_ne_true]
    exact ih hrest

theorem filter_join_other (rest : List PageAuditInfo) (purl : String) (t : WarningType)
    (hu : ∀ q ∈ rest, q.url ≠ purl)
    (hhead : ∀ q ∈ rest, ∀ e ∈ q.warnings, ∀ ev ∈ e.2, ev.head? = some q.url) :
    ((rest.map (fun q => lookupWM q.warnings t)).flatten).filter
      (fun ev => ev.head? == some purl) = [] := by
  induction rest with
  | nil => rfl
  | cons q rs ih =>
    have h1 : (lookupWM q.warnings t).filter (fun ev => ev.head? == some purl) = [] :=
      filter_page_other _ q.url purl (hu q (by simp))
        (lookupWM_head q t (hhead q (by simp)))
    have hu' : ∀ q' ∈ rs, q'.url ≠ purl := fun q' hq' => hu q' (by simp [hq'])
    have hh' : ∀ q' ∈ rs, ∀ e ∈ q'.warnings, ∀ ev ∈ e.2, ev.head? = some q'.url :=
      fun q' hq' => hhead q' (by simp [hq'])
    simp only [List.map_cons, List.flatten_cons, List.filter_append, h1, ih hu' hh',
      List.nil_append]

theorem filter_join_pages (pages : List PageAuditInfo) (p : PageAuditInfo)
    (t : WarningType)
    (hnodup : (pages.map (fun q => q.url)).Nodup) (hp : p ∈ pages)
    (hhead : ∀ q ∈ pages, ∀ e ∈ q.warnings, ∀ ev ∈ e.2, ev.head? = some q.url) :
    ((pages.map (fun q => lookupWM q.warnings t)).flatten).filter
      (fun ev => ev.head? == some p.url) = lookupWM p.warnings t := by
  induction pages with
  | nil => simp at hp
  | cons q rest ih =>
    have hndq : q.url ∉ rest.map (fun q' => q'.url) :=
      (List.nodup_cons.mp (by simpa using hnodup)).1
    have hnd' : (rest.map (fun q' => q'.url)).Nodup :=
      (List.nodup_cons.mp (by simpa using hnodup)).2
    have hh' : ∀ q' ∈ rest, ∀ e ∈ q'.warnings, ∀ ev ∈ e.2, ev.head? = some q'.url :=
      fun q' hq' => hhead q' (by simp [hq'])
    rcases List.mem_cons.mp hp with hpq | hpr
    · subst hpq
      have h1 : (lookupWM p.warnings t).filter (fun ev => ev.head? == some p.url) =
          lookupWM p.warnings t :=
        filter_page_self _ p.url (lookupWM_head p t (hhead p (by simp)))
      have hu' : ∀ q' ∈ rest, q'.url ≠ p.url := by
        intro q' hq' heq
        exact hndq (by
          rw [← heq]
          exact List.mem_map_of_mem _ hq')
      simp only [List.map_cons, List.flatten_cons, List.filter_append, h1,
        filter_join_other rest p.url t hu' hh', List.append_nil]
    · have hqp : q.url ≠ p.url := by
        intro heq
        exact hndq (by
          rw [heq]
          exact List.mem_map_of_mem _ hpr)
      have h1 : (lookupWM q.warnings t).filter (fun ev => ev.head? == some p.url) = [] :=
        filter_page_other _ q.url p.url hqp (lookupWM_head q t (hhead q (by simp)))
      simp only [List.map_cons, List.flatten_cons, List.filter_append, h1, List.nil_append]
      exact ih hnd' hpr hh'

theorem checkH1_head (texts : List String) (u : String) (e : WarningType × List String)
    (he : e ∈ checkH1 texts u) : e.2.head? = some u := by
  unfold checkH1 at he
  split_ifs at he <;> simp_all
  rcases he with he | he <;> simp_all

theorem checkTitle_head (s u : String) (e : WarningType × List String)
    (he : e ∈ checkTitle s u) : e.2.head? = some u := by
  unfold checkTitle at he
  split_ifs at he <;> simp_all

theorem checkDescription_head (s u : String) (e : WarningType × List String)
    (he : e ∈ checkDescription s u) : e.2.head? = some u := by
  unfold checkDescription at he
  split_ifs at he <;> simp_all

theorem checkLinkProtocol_head (parse : String → Option ParsedURL)
    (links : List String) (u : String) (e : WarningType × List String)
    (he : e ∈ checkLinkProtocol parse links u) : e.2.head? = some u := by
  simp only [checkLinkProtocol] at he
  split_ifs at he <;> simp_all

theorem checkBrokenLinks_head (alive : String → Bool) (u : String)
    (links cps : List String) (e : WarningType × List String)
    (he : e ∈ checkBrokenLinks alive u links cps) : e.2.head? = some u := by
  simp only [checkBrokenLinks] at he
  split_ifs at he <;> simp_all

/-- C7: flattening per-page warning maps into the crawl-wide map concatenates,
per warning type, every page's evidence rows; partitioning the flattened rows
by their first element (the page URL) reconstructs each page's own rows
exactly — provided page URLs are distinct — and every check of the engine
emits only rows whose first element is the page URL, which is what makes the
partition well-defined. -/
theorem flatten_split_roundtrip (pages : List PageAuditInfo) (p : PageAuditInfo)
    (t : WarningType)
    (hnodup : (pages.map (fun q => q.url)).Nodup)
    (hp : p ∈ pages)
    (hkeys : ∀ q ∈ pages, (q.warnings.map Prod.fst).Nodup)
    (hhead : ∀ q ∈ pages, ∀ e ∈ q.warnings, ∀ ev ∈ e.2, ev.head? = some q.url) :
    (lookupWM (flattenPages pages) t).filter (fun ev => ev.head? == some p.url) =
      lookupWM p.warnings t ∧
    (∀ (texts : List String) (v : String) (e : WarningType × List String),
      e ∈ checkH1 texts v → e.2.head? = some v) ∧
    (∀ (s v : String) (e : WarningType × List String),
      e ∈ checkTitle s v → e.2.head? = some v) ∧
    (∀ (s v : String) (e : WarningType × List String),
      e ∈ checkDescription s v → e.2.head? = some v) ∧
    (∀ (parse : String → Option ParsedURL) (links : List String) (v : String)
      (e : WarningType × List String),
      e ∈ checkLinkProtocol parse links v → e.2.head? = some v) ∧
    (∀ (alive : String → Bool) (v : String) (links cps : List String)
      (e : WarningType × List String),
      e ∈ checkBrokenLinks alive v links cps → e.2.head? = some v) := by
  refine ⟨?_, checkH1_head, checkTitle_head, checkDescription_head,
    checkLinkProtocol_head, checkBrokenLinks_head⟩
  rw [lookupWM_flattenPages pages t hkeys]
  exact filter_join_pages pages p t hnodup hp hhead

/-- Closed instance for flatten_split_roundtrip: two pages with distinct URLs
and URL-headed evidence rows; the flattened map filtered by the first page's
URL returns that page's rows. -/
theorem flatten_split_roundtrip_witness :
    (lookupWM (flattenPages
        [⟨"https://a.com", "ta", [("title_too_short", [["https://a.com", "short"]])], ""⟩,
         ⟨"https://b.com", "tb", [("title_too_short", [["https://b.com", "tiny"]])], ""⟩])
        "title_too_short").filter
      (fun ev => ev.head? == some "https://a.com") = [["https://a.com", "short"]] := by
  have h := flatten_split_roundtrip
    [⟨"https://a.com", "ta", [("title_too_short", [["https://a.com", "short"]])], ""⟩,
     ⟨"https://b.com", "tb", [("title_too_short", [["https://b.com", "tiny"]])], ""⟩]
    ⟨"https://a.com", "ta", [("title_too_short", [["https://a.com", "short"]])], ""⟩
    "title_too_short" (by decide) (by decide) (by decide) (by decide)
  have h1 := h.1
  rw [h1]
  rfl

end GoScraper
